import Mathlib

/-
Verification of the ISAAC AI-Ready Record "Living Ontology Engine"
(portal/ontology.py and portal/database.py), as a shallow embedding.

Conventions of the embedding:
  * Python dicts become association lists (`List (key × value)`), which
    preserve insertion order exactly as CPython dicts do; lookup takes the
    first (and, for data produced by the code, only) binding of a key.
  * JSON-like record documents become the inductive type `Json`.
  * Machine effects (database connection, git network calls, the wiki
    checkout, the LLM call) are passed in explicitly as parameters or as
    outcome values, so each Python function becomes a pure Lean function
    from its inputs plus the outcomes of its effects to its result and the
    successor state of the vocabulary cache store.
  * Python exceptions raised by an effect are modelled by the corresponding
    outcome parameter; `try/except` blocks become `match` on that outcome.
-/

namespace Isaac

/-- JSON-like documents, the shape of ISAAC records and of parsed YAML:
strings, numbers, booleans, null, arrays and (insertion-ordered) objects. -/
inductive Json where
  | str : String → Json
  | num : Int → Json
  | bool : Bool → Json
  | null : Json
  | arr : List Json → Json
  | obj : List (String × Json) → Json

/-- First-match lookup in an association list, the dict access
`obj[key]` guarded by `key in obj` in `_resolve_path`. -/
def alookup (kvs : List (String × Json)) (k : String) : Option Json :=
  match kvs with
  | [] => none
  | (k', v) :: tl => if k' = k then some v else alookup tl k

mutual

/-- Embeds the inner `_walk(obj, remaining, breadcrumb)` closure of
`ontology._resolve_path`: with no remaining segments the current node is
emitted as a leaf with its dot-joined breadcrumb; a mapping is entered only
through the next segment (consuming it); a sequence forks over every element
with the element index appended as a string and the segments not consumed;
any other node with segments left yields nothing. -/
def walk (j : Json) (remaining : List String) (breadcrumb : List String) :
    List (String × Json) :=
  match remaining with
  | [] => [(String.intercalate "." breadcrumb, j)]
  | key :: rest =>
    match j with
    | .obj kvs => walkObj kvs key rest breadcrumb
    | .arr items => walkArr items (key :: rest) breadcrumb 0
    | _ => []

/-- The dict branch of `_walk`: `if key in obj: _walk(obj[key], rest,
breadcrumb + [key])` — descend into the first binding of `key`, else no hits. -/
def walkObj (kvs : List (String × Json)) (key : String) (rest : List String)
    (breadcrumb : List String) : List (String × Json) :=
  match kvs with
  | [] => []
  | (k', v) :: tl =>
    if k' = key then walk v rest (breadcrumb ++ [key])
    else walkObj tl key rest breadcrumb

/-- The list branch of `_walk`: `for idx, item in enumerate(obj):
_walk(item, remaining, breadcrumb + [str(idx)])`. -/
def walkArr (items : List Json) (remaining : List String)
    (breadcrumb : List String) (idx : Nat) : List (String × Json) :=
  match items with
  | [] => []
  | item :: tl =>
    walk item remaining (breadcrumb ++ [toString idx]) ++
      walkArr tl remaining breadcrumb (idx + 1)

end

/-- Embeds `ontology._resolve_path(data, path_parts)`: empty paths produce
no hits, otherwise the walk starts at the record root with an empty
breadcrumb. -/
def resolve_path (data : Json) (path_parts : List String) :
    List (String × Json) :=
  match path_parts with
  | [] => []
  | _ :: _ => walk data path_parts []

/-- Embeds `ontology._SKIP_CATEGORIES`. -/
def _SKIP_CATEGORIES : List String := ["descriptors.theoretical_metric"]

/-- Character-level worker for splitting a string on the dots of a dotted
category key. -/
def splitDotChars : List Char → List (List Char)
  | [] => [[]]
  | c :: tl =>
    if c = '.' then [] :: splitDotChars tl
    else
      match splitDotChars tl with
      | [] => [[c]]
      | l :: ls => (c :: l) :: ls

/-- Python `cat_key.split(".")` as used by `validate_record_vocabulary`. -/
def splitOnDot (s : String) : List String :=
  (splitDotChars s.toList).map fun cs => String.mk cs

/-- One category of the vocabulary: `{'description': ..., 'values': [...]}`. -/
structure CatData where
  description : String
  values : List String
deriving DecidableEq

/-- The in-memory vocabulary `{section: {category: CatData}}` as nested
insertion-ordered association lists. -/
abbrev Vocab := List (String × List (String × CatData))

/-- One validation error `{"path": ..., "message": ...}`. -/
structure Violation where
  path : String
  message : String
deriving DecidableEq

/-- Python `str` of a list of strings, `['a', 'b']`, as interpolated into the
violation message (faithful for values without quotes or escapes). -/
def pyStrList (xs : List String) : String :=
  "[" ++ String.intercalate ", " (xs.map fun s => "'" ++ s ++ "'") ++ "]"

/-- The violation message format string of `validate_record_vocabulary`. -/
def violationMessage (value catKey : String) (allowed : List String) : String :=
  "'" ++ value ++ "' is not in the vocabulary for " ++ catKey ++
    ". Allowed: " ++ pyStrList allowed

/-- The inner loop of `validate_record_vocabulary`: scan the hits of one
category, flagging string leaves not in the allowed list. -/
def checkHits (hits : List (String × Json)) (catKey : String)
    (allowed : List String) : List Violation :=
  match hits with
  | [] => []
  | (p, v) :: tl =>
    (match v with
     | .str s =>
       if s ∈ allowed then [] else [⟨p, violationMessage s catKey allowed⟩]
     | _ => []) ++ checkHits tl catKey allowed

/-- The middle loop of `validate_record_vocabulary`: scan the categories of
one section, skipping `_SKIP_CATEGORIES` and empty allowed lists. -/
def checkCategories (record : Json) (cats : List (String × CatData)) :
    List Violation :=
  match cats with
  | [] => []
  | (catKey, catData) :: tl =>
    (if catKey ∈ _SKIP_CATEGORIES then []
     else if catData.values = [] then []
     else checkHits (resolve_path record (splitOnDot catKey))
            catKey catData.values) ++ checkCategories record tl

/-- The outer loop of `validate_record_vocabulary` over sections. -/
def checkSections (record : Json) (vocab : Vocab) : List Violation :=
  match vocab with
  | [] => []
  | (_, cats) :: tl => checkCategories record cats ++ checkSections record tl

/-- Embeds `ontology.validate_record_vocabulary(record)`, with the loaded
vocabulary passed explicitly: if no vocabulary is loaded, validation is
skipped; otherwise every section's categories are checked in order. -/
def validate_record_vocabulary (vocab : Vocab) (record : Json) :
    List Violation :=
  if vocab = [] then [] else checkSections record vocab

/-- First-match lookup in a generic association list (Python `d[k]` guarded
by `k in d`). -/
def lookupKey {α : Type} (l : List (String × α)) (k : String) : Option α :=
  match l with
  | [] => none
  | (k', v) :: tl => if k' = k then some v else lookupKey tl k

/-- Python dict assignment `d[k] = v`: replace the value in place if the key
exists (keeping its position, as CPython dicts do), else append the new
binding at the end. -/
def setKey {α : Type} (l : List (String × α)) (k : String) (v : α) :
    List (String × α) :=
  match l with
  | [] => [(k, v)]
  | (k', v') :: tl => if k' = k then (k, v) :: tl else (k', v') :: setKey tl k v

/-- Insertion into a by-key sorted association list (string order, as SQL
`ORDER BY` on a text column compares byte-wise). -/
def insertByKey {α : Type} (x : String × α) : List (String × α) →
    List (String × α)
  | [] => [x]
  | y :: tl => if y.1 < x.1 then y :: insertByKey x tl else x :: y :: tl

/-- Sort an association list by key (insertion sort). -/
def sortByKey {α : Type} : List (String × α) → List (String × α)
  | [] => []
  | x :: tl => insertByKey x (sortByKey tl)

/-- Embeds `database.load_vocabulary_cache()`: regroup the rows of the
`vocabulary_cache` table into `{section: {category: {description, values}}}`.
The store parameter is the table's logical content as saved; the SQL
`ORDER BY section, category` returns sections in sorted order, each with its
categories sorted by key (section and category are unique per row). -/
def load_vocabulary_cache (store : Vocab) : Vocab :=
  (sortByKey store).map fun sc => (sc.1, sortByKey sc.2)

/-- The environment of effects behind `ontology.load_vocabulary`:
whether the `database` import succeeded (`DB_AVAILABLE`), whether `PGHOST`
is set (`is_db_configured`), whether connecting works
(`test_db_connection`), whether reading the cache raises, and the content of
the fallback `vocabulary.json` file (`none` when the file is absent). -/
structure DbEnv where
  dbAvailable : Bool
  dbConfigured : Bool
  dbConnects : Bool
  cacheReadFails : Bool
  fileVocab : Option Vocab

/-- Embeds `ontology._use_database()`. -/
def _use_database (env : DbEnv) : Bool :=
  env.dbAvailable && env.dbConfigured && env.dbConnects

/-- Embeds `ontology._load_vocabulary_from_file()`: the parsed JSON file, or
the empty mapping when the file does not exist. -/
def _load_vocabulary_from_file (env : DbEnv) : Vocab :=
  match env.fileVocab with
  | none => []
  | some v => v

/-- Embeds `ontology.load_vocabulary()`: read the DB cache when the database
is usable, swallowing a raised exception and an empty cache alike by falling
back to the file. -/
def load_vocabulary (env : DbEnv) (store : Vocab) : Vocab :=
  if _use_database env then
    if env.cacheReadFails then _load_vocabulary_from_file env
    else if load_vocabulary_cache store = [] then _load_vocabulary_from_file env
    else load_vocabulary_cache store
  else _load_vocabulary_from_file env

/-- Embeds `ontology.get_sections()`: `list(vocab.keys())`. -/
def get_sections (env : DbEnv) (store : Vocab) : List String :=
  (load_vocabulary env store).map Prod.fst

/-- Embeds `ontology.get_categories(section)`. -/
def get_categories (env : DbEnv) (store : Vocab) (sect : String) :
    List (String × CatData) :=
  match lookupKey (load_vocabulary env store) sect with
  | some cats => cats
  | none => []

/-- Embeds `ontology.WIKI_PAGE_TO_SECTION` in its Python insertion order. -/
def WIKI_PAGE_TO_SECTION : List (String × String) :=
  [("Record-Overview", "Record Info"), ("Sample", "Sample"),
   ("Context", "Context"), ("System", "System"),
   ("Measurement", "Measurement"), ("Assets", "Assets"),
   ("Links", "Links"), ("Descriptors", "Descriptors")]

/-- The outcome of one wiki page inside `sync_from_wiki`: the page file is
missing, or its content was parsed by `_parse_yaml_from_markdown` into a
dict.  `parsed []` covers both a parse failure (the parser degrades to `{}`)
and an empty vocabulary block; a falsy dict makes the page skipped.  Each
parsed entry carries `none` when its YAML value is not itself a dict (such
entries are dropped by the `isinstance(data, dict)` check). -/
inductive PageOutcome where
  | missing : PageOutcome
  | parsed : List (String × Option CatData) → PageOutcome

/-- The per-page section construction of `sync_from_wiki`: keep the entries
whose YAML value is a dict, reading `description` and `values` with their
defaults. -/
def buildSection (pv : List (String × Option CatData)) :
    List (String × CatData) :=
  pv.filterMap fun ke => ke.2.map fun d => (ke.1, d)

/-- The page loop of `sync_from_wiki`: accumulate the vocabulary over the
pages that parsed non-empty, count them, and record the skipped pages. -/
def collectVocab (ps : List (String × String))
    (outcomes : String → PageOutcome) : Vocab × Nat × List String :=
  match ps with
  | [] => ([], 0, [])
  | (page, sect) :: tl =>
    let rec_ := collectVocab tl outcomes
    match outcomes page with
    | .missing => (rec_.1, rec_.2.1, page :: rec_.2.2)
    | .parsed [] => (rec_.1, rec_.2.1, page :: rec_.2.2)
    | .parsed pv => ((sect, buildSection pv) :: rec_.1, rec_.2.1 + 1, rec_.2.2)

/-- The success message of `sync_from_wiki`. -/
def syncMessage (parsedPages : Nat) (vocab : Vocab) (skipped : List String) :
    String :=
  "Synced " ++ toString parsedPages ++ " pages, " ++
    toString (vocab.foldl (fun n sc => n + sc.2.length) 0) ++ " categories" ++
    (if skipped = [] then ""
     else " (skipped: " ++ String.intercalate ", " skipped ++ ")")

/-- The environment of effects behind `sync_from_wiki`: `_use_database()`,
the outcome of `_clone_or_pull_wiki` (an exception message on failure), the
per-page file/parse outcomes, and the outcome of `save_vocabulary_cache`
(which rolls the transaction back when it raises). -/
structure SyncEnv where
  useDb : Bool
  cloneResult : Except String Unit
  outcomes : String → PageOutcome
  saveResult : Except String Unit

/-- Embeds `ontology.sync_from_wiki`: returns the `(success, message)` pair
and the cache store after the call.  The store is replaced wholesale by
`save_vocabulary_cache` (`DELETE FROM vocabulary_cache` plus fresh inserts)
exactly when the accumulated vocabulary is non-empty and saving succeeds. -/
def sync_from_wiki (env : SyncEnv) (store : Vocab) : (Bool × String) × Vocab :=
  if !env.useDb then ((false, "Database not available"), store)
  else
    match env.cloneResult with
    | .error e => ((false, "Wiki sync failed: " ++ e), store)
    | .ok _ =>
      let c := collectVocab WIKI_PAGE_TO_SECTION env.outcomes
      if c.1 = [] then
        ((false, "No vocabulary data found in wiki pages"), store)
      else
        match env.saveResult with
        | .error e => ((false, "Wiki sync failed: " ++ e), store)
        | .ok _ => ((true, syncMessage c.2.1 c.1 c.2.2), c.1)

/-- Does any section of the cached vocabulary contain the dotted key? -/
def cacheHasKey (v : Vocab) (k : String) : Bool :=
  v.any fun sc => sc.2.any fun c => c.1 == k

/-- A row of the `vocabulary_proposals` table (also the proposal dict handed
to `apply_approved_proposal`). -/
structure Proposal where
  proposal_type : String
  sect : String
  category : String
  term : String
  description : String
  proposed_by : String
  status : String
  reviewed_by : Option String
  reviewed_at : Option Nat
  review_comment : Option String
deriving DecidableEq

/-- The `vocabulary_proposals` table: rows keyed by their integer id. -/
abbrev ProposalTable := List (Nat × Proposal)

/-- `SELECT * FROM vocabulary_proposals WHERE id = %s` (ids are unique). -/
def findProposal (table : ProposalTable) (id : Nat) : Option Proposal :=
  match table with
  | [] => none
  | (i, p) :: tl => if i = id then some p else findProposal tl id

/-- The `UPDATE ... WHERE id = %s` of `review_proposal`: set status,
reviewer, review time (`NOW()` passed in as `now`) and comment on the row
with the given id. -/
def updateProposal (table : ProposalTable) (id : Nat)
    (status reviewer comment : String) (now : Nat) : ProposalTable :=
  table.map fun r =>
    (r.1,
     if r.1 = id then
       { r.2 with
         status := status
         reviewed_by := some reviewer
         reviewed_at := some now
         review_comment := some comment }
     else r.2)

/-- Embeds `database.review_proposal`: fail on an unknown id, fail without
mutation when the proposal is not pending, otherwise record the decision. -/
def review_proposal (table : ProposalTable) (id : Nat)
    (status reviewer comment : String) (now : Nat) :
    (Bool × String) × ProposalTable :=
  match findProposal table id with
  | none => ((false, "Proposal not found."), table)
  | some p =>
    if p.status ≠ "pending" then
      ((false, "Proposal already " ++ p.status ++ "."), table)
    else
      ((true, "Proposal " ++ status ++ "."),
       updateProposal table id status reviewer comment now)

/-- The outcome of `push_change_to_wiki` as observed by
`apply_approved_proposal`: the returned `(ok, message)` pair, or a raised
exception caught by the `try/except`. -/
inductive PushOutcome where
  | returned : Bool → String → PushOutcome
  | raised : String → PushOutcome

/-- The `wiki_push_ok` flag resulting from a push outcome. -/
def pushOkFlag : PushOutcome → Bool
  | .returned ok _ => ok
  | .raised _ => false

/-- The `wiki_msg` string resulting from a push outcome. -/
def pushMsgOf : PushOutcome → String
  | .returned _ m => m
  | .raised e => e

/-- The environment of effects behind `apply_approved_proposal`: the load
environment, the outcome of `save_vocabulary_cache` (when reached), and the
outcome of `push_change_to_wiki` (when reached). -/
structure ApplyEnv where
  db : DbEnv
  saveResult : Except String Unit
  push : PushOutcome

/-- The categories of a section, `vocab[section]`, after the section was
defaulted to exist. -/
def sectCats (vocab : Vocab) (sect : String) : List (String × CatData) :=
  (lookupKey vocab sect).getD []

/-- The business-rule checks and in-memory mutation of
`apply_approved_proposal`: the error message on a violated rule, or the
mutated vocabulary. -/
def applyChecks (p : Proposal) (vocab : Vocab) : Except String Vocab :=
  if p.proposal_type = "add_term" then
    match lookupKey (sectCats vocab p.sect) p.category with
    | none =>
      .error ("Category '" ++ p.category ++ "' not found in '" ++ p.sect ++ "'")
    | some cd =>
      if p.term ∈ cd.values then
        .error ("Term '" ++ p.term ++ "' already exists")
      else
        .ok (setKey vocab p.sect
              (setKey (sectCats vocab p.sect) p.category
                { cd with values := cd.values ++ [p.term] }))
  else if p.proposal_type = "add_category" then
    match lookupKey (sectCats vocab p.sect) p.category with
    | some _ => .error ("Category '" ++ p.category ++ "' already exists")
    | none =>
      .ok (setKey vocab p.sect
            (setKey (sectCats vocab p.sect) p.category
              ⟨p.description, []⟩))
  else .error ("Unknown proposal type: " ++ p.proposal_type)

/-- The business rules of the claim (spec section 4.5), stated against a
vocabulary: an `add_term` whose category does not exist in its section, an
`add_term` whose term is already among the category's allowed values, or an
`add_category` whose category already exists.  (Looking a category up in
`sectCats` is unaffected by the code's defaulting of a missing section to
`{}`.) -/
def violatesRules (p : Proposal) (vocab : Vocab) : Prop :=
  (p.proposal_type = "add_term" ∧
    lookupKey (sectCats vocab p.sect) p.category = none) ∨
  (p.proposal_type = "add_term" ∧
    ∃ cd, lookupKey (sectCats vocab p.sect) p.category = some cd ∧
      p.term ∈ cd.values) ∨
  (p.proposal_type = "add_category" ∧
    lookupKey (sectCats vocab p.sect) p.category ≠ none)

/-- The tail of `apply_approved_proposal` once cache persistence succeeded
(or was skipped because no database is in use): attempt the wiki push and
assemble the success result, attaching a warning when the push failed. -/
def applyFinish (p : Proposal) (push : PushOutcome) (newStore : Vocab) :
    (Bool × String × Bool) × Vocab :=
  let ok := pushOkFlag push
  ((true,
    "Applied proposal: " ++ p.proposal_type ++
      (if ok then "" else " (wiki push warning: " ++ pushMsgOf push ++ ")"),
    ok), newStore)

/-- Embeds `ontology.apply_approved_proposal(proposal, wiki_prose)`: load
the vocabulary, default the target section to exist, re-check business
rules, persist the mutated vocabulary to the cache when the database is in
use, then push to the wiki; a push failure only clears `wiki_push_ok` and
adds a warning.  Returns `((success, message, wiki_push_ok), store')` where
`store'` is the cache store after the call. -/
def apply_approved_proposal (p : Proposal) (env : ApplyEnv) (store : Vocab) :
    (Bool × String × Bool) × Vocab :=
  let vocab0 := load_vocabulary env.db store
  let vocab :=
    if lookupKey vocab0 p.sect = none then setKey vocab0 p.sect [] else vocab0
  match applyChecks p vocab with
  | .error m => ((false, m, false), store)
  | .ok vocab' =>
    if _use_database env.db then
      match env.saveResult with
      | .error e => ((false, "Failed to update cache: " ++ e, false), store)
      | .ok _ => applyFinish p env.push vocab'
    else applyFinish p env.push store

/-
Text model for the markdown parser and YAML-block renderer (claim C5).
Page text is modelled as a list of characters; `splitNewline` and
`joinNewline` relate it to its list of lines exactly as Python's
`"\n".join` and `str.split("\n")` do.  The regular-expression search of
`_parse_yaml_from_markdown` is modelled for the canonical heading forms it
targets (`## Controlled Vocabulary` in ATX style, or the Setext
`Controlled Vocabulary` over a dashed underline, canonical spacing and
capitalisation); `yaml.safe_load` is modelled on the restricted grammar
emitted by `_regenerate_yaml_block` — any text outside that grammar maps to
a parse failure, which the Python code degrades to the empty mapping.
-/

/-- Character-list text. -/
abbrev Chars := List Char

/-- A category of the rendered vocabulary, with text as character lists. -/
structure Cat5 where
  description : Chars
  values : List Chars
deriving DecidableEq

/-- A vocabulary mapping for one section, as handled by
`_regenerate_yaml_block` and `_parse_yaml_from_markdown`. -/
abbrev Vocab5 := List (Chars × Cat5)

/-- Lexicographic comparison of character lists by code point; Python
compares strings this way in `sorted`. -/
def lexLt : Chars → Chars → Bool
  | [], [] => false
  | [], _ :: _ => true
  | _ :: _, [] => false
  | a :: as, b :: bs =>
    if a.toNat < b.toNat then true
    else if b.toNat < a.toNat then false
    else lexLt as bs

/-- Insertion step of sorting the vocabulary entries by key. -/
def insertSorted5 (x : Chars × Cat5) : Vocab5 → Vocab5
  | [] => [x]
  | y :: tl => if lexLt y.1 x.1 then y :: insertSorted5 x tl else x :: y :: tl

/-- Python's `sorted(vocab_for_section.items())` (keys are unique, so the
order is by key). -/
def sortVocab5 : Vocab5 → Vocab5
  | [] => []
  | x :: tl => insertSorted5 x (sortVocab5 tl)

/-- Python `", ".join(values)`. -/
def joinCommaSpace : List Chars → Chars
  | [] => []
  | [v] => v
  | v :: tl => v ++ ',' :: ' ' :: joinCommaSpace tl

/-- Python `"\n".join(lines)`. -/
def joinNewline : List Chars → Chars
  | [] => []
  | [l] => l
  | l :: tl => l ++ '\n' :: joinNewline tl

/-- Python `text.split("\n")`. -/
def splitNewline (s : Chars) : List Chars :=
  match s with
  | [] => [[]]
  | c :: tl =>
    if c = '\n' then [] :: splitNewline tl
    else
      match splitNewline tl with
      | [] => [[c]]
      | l :: ls => (c :: l) :: ls

/-- Splitting a YAML flow sequence body on its `, ` separators (the form
`", ".join` produced; faithful to YAML for plain scalars that contain no
comma). -/
def splitCommaSpace : Chars → List Chars
  | [] => [[]]
  | [c] => [[c]]
  | c :: c2 :: tl =>
    if c = ',' && c2 = ' ' then [] :: splitCommaSpace tl
    else
      match splitCommaSpace (c2 :: tl) with
      | [] => [[c]]
      | l :: ls => (c :: l) :: ls

/-- The three lines `_regenerate_yaml_block` emits for one category. -/
def renderEntry (k : Chars) (d : Cat5) : List Chars :=
  [k ++ [':'],
   "  description: \"".toList ++ d.description ++ ['"'],
   "  values: [".toList ++ joinCommaSpace d.values ++ [']']]

/-- The lines of the regenerated YAML block, in sorted key order. -/
def vocabLines (v : Vocab5) : List Chars :=
  (sortVocab5 v).flatMap fun kd => renderEntry kd.1 kd.2

/-- Embeds `ontology._regenerate_yaml_block(vocab_for_section)`: three lines
per category, categories sorted by key, joined with newlines. -/
def _regenerate_yaml_block (v : Vocab5) : Chars :=
  joinNewline (vocabLines v)

/-- Is a line whitespace-only (what the regex `\s*` can consume of it)? -/
def isBlank (l : Chars) : Bool :=
  l.all fun c => c == ' ' || c == '\t'

/-- Does `pat` occur as a prefix of `l`? -/
def charsHavePrefix : Chars → Chars → Bool
  | [], _ => true
  | _ :: _, [] => false
  | p :: ps, c :: cs => p == c && charsHavePrefix ps cs

/-- The suffix of `l` after the first occurrence of `pat`, when `pat`
occurs as a substring. -/
def dropAfterSub (pat : Chars) : Chars → Option Chars
  | [] => if charsHavePrefix pat [] then some [] else none
  | c :: tl =>
    if charsHavePrefix pat (c :: tl) then some ((c :: tl).drop pat.length)
    else dropAfterSub pat tl

/-- Does `pat` occur as a suffix of `l`? -/
def charsHaveSuffix (suf l : Chars) : Bool :=
  charsHavePrefix suf.reverse l.reverse

/-- A line on which the ATX alternative `##\s*Controlled\s+Vocabulary` of
the heading regex matches ending at end of line (canonical spacing). -/
def isAtxHeading (l : Chars) : Bool :=
  match dropAfterSub "## Controlled Vocabulary".toList l with
  | some rest => isBlank rest
  | none => false

/-- A line ending in `Controlled Vocabulary`, the text part of the Setext
heading alternative. -/
def isSetextText (l : Chars) : Bool :=
  charsHaveSuffix "Controlled Vocabulary".toList l

/-- The dashed underline `-+` of a Setext heading (trailing whitespace is
eaten by the following `\s*`). -/
def isDashUnderline (l : Chars) : Bool :=
  !(l.takeWhile fun c => c == '-').isEmpty &&
    isBlank (l.dropWhile fun c => c == '-')

/-- A line opening the fenced block, from the regex part
`(three backticks)yaml\s*`. -/
def isYamlFence (l : Chars) : Bool :=
  charsHavePrefix "```yaml".toList l && isBlank (l.drop 7)

/-- Does the line contain the closing triple backtick that ends the lazy
capture group? -/
def containsTicks (l : Chars) : Bool :=
  (dropAfterSub "```".toList l).isSome

/-- Collect the captured lines up to the first line containing a closing
fence; no closing fence means the regex fails to match here. -/
def grabContent : List Chars → Option (List Chars)
  | [] => none
  | l :: rest =>
    if containsTicks l then some []
    else (grabContent rest).map fun c => l :: c

/-- After a heading: the `\s*\n+` gap (blank lines), the opening fence, and
the captured block. -/
def grabFence (ls : List Chars) : Option (List Chars) :=
  match ls.dropWhile isBlank with
  | [] => none
  | f :: rest => if isYamlFence f then grabContent rest else none

/-- Scan the page's lines for a heading followed by a fenced YAML block —
the `re.search` of `_parse_yaml_from_markdown` (a heading without a
complete block after it is skipped and the search continues; a heading on
the final line can have no block, so a single remaining line never
matches). -/
def findBlock : List Chars → Option (List Chars)
  | [] => none
  | [_] => none
  | l :: u :: rest2 =>
    if isAtxHeading l then
      match grabFence (u :: rest2) with
      | some b => some b
      | none => findBlock (u :: rest2)
    else if isSetextText l && isDashUnderline u then
      match grabFence rest2 with
      | some b => some b
      | none => findBlock (u :: rest2)
    else findBlock (u :: rest2)

/-- YAML plain flow scalars that do not read back as strings (booleans and
nulls), excluded from well-formed vocabulary values. -/
def reservedScalars : List Chars :=
  ["true", "false", "null", "yes", "no", "on", "off",
   "True", "False", "Null", "Yes", "No", "On", "Off",
   "TRUE", "FALSE", "NULL", "YES", "NO", "ON", "OFF", "~"].map String.toList

/-- Characters that keep a plain YAML scalar plain (no indicators, no flow
or quoting characters, no newline). -/
def plainSafeChar (c : Char) : Bool :=
  !(['[', ']', '{', '}', '"', Char.ofNat 39, '#', '&', '*', '!', '|', '>',
     '%', '@', Char.ofNat 96, ',', ':', '\n', '\t', '\\'].contains c)

/-- A well-formed vocabulary value: a plain scalar that YAML reads back as
the same string. -/
def wfValueChars (v : Chars) : Bool :=
  !v.isEmpty && v.all plainSafeChar &&
    v.headD ' ' != ' ' && v.getLastD ' ' != ' ' &&
    !(reservedScalars.contains v) && (v.headD ' ').isAlpha

/-- The rest of `l` after the prefix `pre`, when `pre` is a prefix. -/
def dropPre (pre l : Chars) : Option Chars :=
  if charsHavePrefix pre l then some (l.drop pre.length) else none

/-- A description representable inside the double quotes the renderer wraps
it in (no quote, escape, newline or backtick). -/
def wfDescChars (d : Chars) : Bool :=
  d.all fun c => !(['"', '\\', '\n', Char.ofNat 96].contains c)

/-- Parse the `key:` line of an entry. -/
def parseKeyLine (l : Chars) : Option Chars :=
  match l.reverse with
  | ':' :: revKey =>
    let k := revKey.reverse
    if !k.isEmpty && k.all plainSafeChar && !(k.contains ' ') then some k
    else none
  | _ => none

/-- Parse the `  description: "..."` line of an entry. -/
def parseDescLine (l : Chars) : Option Chars :=
  match dropPre "  description: \"".toList l with
  | some rest =>
    match rest.reverse with
    | '"' :: revD =>
      let d := revD.reverse
      if wfDescChars d then some d else none
    | _ => none
  | none => none

/-- Parse the `  values: [...]` line of an entry. -/
def parseValsLine (l : Chars) : Option (List Chars) :=
  match dropPre "  values: [".toList l with
  | some rest =>
    match rest.reverse with
    | ']' :: revMid =>
      let mid := revMid.reverse
      if mid.isEmpty then some []
      else
        let vs := splitCommaSpace mid
        if vs.all wfValueChars then some vs else none
    | _ => none
  | none => none

/-- Parse the captured block as the mapping grammar the renderer emits:
repeated groups of a key line, a description line and a values line. -/
def parseVocabLines : List Chars → Option Vocab5
  | [] => some []
  | k :: d :: v :: rest =>
    match parseKeyLine k, parseDescLine d, parseValsLine v,
          parseVocabLines rest with
    | some key, some desc, some vals, some tl =>
      some ((key, ⟨desc, vals⟩) :: tl)
    | _, _, _, _ => none
  | _ => none

/-- Embeds `ontology._parse_yaml_from_markdown(md_content)`: find the
heading and fenced block, parse it, and degrade every failure to the empty
mapping. -/
def _parse_yaml_from_markdown (page : Chars) : Vocab5 :=
  match findBlock (splitNewline page) with
  | none => []
  | some yamlLines =>
    match parseVocabLines (yamlLines.filter fun l => !isBlank l) with
    | some v => v
    | none => []

/-- The canonical embedding of a regenerated YAML block into a wiki page, as
written by `push_change_to_wiki` and `tools/seed_wiki_vocabulary.py`:
the heading, a blank line, and the fenced block. -/
def embedPage (yamlBlock : Chars) : Chars :=
  "## Controlled Vocabulary\n\n```yaml\n".toList ++ yamlBlock ++
    "\n```".toList

/-- A well-formed key: non-empty plain scalar without spaces. -/
def wfKeyChars (k : Chars) : Bool :=
  !k.isEmpty && k.all plainSafeChar && !(k.contains ' ') && (k.headD ' ').isAlpha

/-- A well-formed vocabulary entry. -/
def wfEntry (e : Chars × Cat5) : Bool :=
  wfKeyChars e.1 && wfDescChars e.2.description && e.2.values.all wfValueChars

/-- A well-formed section vocabulary: all entries well formed, keys
distinct. -/
def WellFormedVocab5 (v : Vocab5) : Prop :=
  v.all wfEntry = true ∧ (v.map Prod.fst).Nodup

/-- Entry ordering by key, the order `sorted(vocab.items())` sorts by. -/
def keyLt (a b : Chars × Cat5) : Prop :=
  lexLt a.1 b.1 = true

/-- The validation contract in the words of the claim (and of spec section
4.4), without the `_SKIP_CATEGORIES` exception that the code applies: one
violation per string-typed leaf hit of every category with a non-empty
allowed list whose value is not a member, and nothing else. -/
def claimedViolations (vocab : Vocab) (record : Json) : List Violation :=
  vocab.flatMap fun sc =>
    sc.2.flatMap fun kd =>
      if kd.2.values = [] then []
      else
        (resolve_path record (splitOnDot kd.1)).filterMap fun pv =>
          match pv.2 with
          | .str s =>
            if s ∈ kd.2.values then none
            else some ⟨pv.1, violationMessage s kd.1 kd.2.values⟩
          | _ => none

/-- The validation contract as amended: identical to `claimedViolations`
except that categories listed in `_SKIP_CATEGORIES` never produce
violations, matching the skip performed by the code. -/
def amendedViolations (vocab : Vocab) (record : Json) : List Violation :=
  vocab.flatMap fun sc =>
    sc.2.flatMap fun kd =>
      if kd.1 ∈ _SKIP_CATEGORIES then []
      else if kd.2.values = [] then []
      else
        (resolve_path record (splitOnDot kd.1)).filterMap fun pv =>
          match pv.2 with
          | .str s =>
            if s ∈ kd.2.values then none
            else some ⟨pv.1, violationMessage s kd.1 kd.2.values⟩
          | _ => none

/-
Theorems.  Helper lemmas come first; each claim Cn is settled by the single
theorem named after it (with its witness or counterexample where needed).
-/

theorem load_from_file_eq (env : DbEnv) :
    _load_vocabulary_from_file env = env.fileVocab.getD [] := by
  obtain ⟨_, _, _, _, f⟩ := env
  cases f <;> rfl

theorem load_vocabulary_degraded (env : DbEnv) (store : Vocab)
    (h : _use_database env = false ∨ env.cacheReadFails = true ∨
      load_vocabulary_cache store = []) :
    load_vocabulary env store = _load_vocabulary_from_file env := by
  unfold load_vocabulary
  rcases h with h | h | h
  · simp [h]
  · simp [h]
  · by_cases hu : _use_database env = true <;> simp [hu, h]

/-- Claim C9: when the loaded vocabulary is the empty mapping,
`validate_record_vocabulary` returns the empty violation list for every
record (fail-open). -/
theorem c9_fail_open (env : DbEnv) (store : Vocab) (record : Json)
    (h : load_vocabulary env store = []) :
    validate_record_vocabulary (load_vocabulary env store) record = [] := by
  rw [h]; rfl

/-- Witness for C9 at a concrete unconfigured environment and record. -/
theorem c9_witness :
    load_vocabulary ⟨false, false, false, false, none⟩ [] = [] ∧
    validate_record_vocabulary
      (load_vocabulary ⟨false, false, false, false, none⟩ [])
      (.obj [("system", .obj [("domain", .str "x")])]) = [] :=
  ⟨rfl, c9_fail_open ⟨false, false, false, false, none⟩ []
    (.obj [("system", .obj [("domain", .str "x")])]) rfl⟩

/-- Claim C10: whenever the database is unconfigured or unreachable
(`_use_database` false), reading the cache raises, or the cached vocabulary
is empty, `load_vocabulary` falls back to the bundled vocabulary file and
returns its contents (the empty mapping when the file is absent), and the
consumers `get_sections` and `get_categories` operate on that file-based
vocabulary; the fallback is silent — `load_vocabulary` is total and never
returns an error value. -/
theorem c10_load_vocabulary_fallback (env : DbEnv) (store : Vocab)
    (h : _use_database env = false ∨ env.cacheReadFails = true ∨
      load_vocabulary_cache store = []) :
    load_vocabulary env store = env.fileVocab.getD [] ∧
    get_sections env store = (env.fileVocab.getD []).map Prod.fst ∧
    ∀ sect, get_categories env store sect =
      (lookupKey (env.fileVocab.getD []) sect).getD [] := by
  have hl : load_vocabulary env store = env.fileVocab.getD [] :=
    (load_vocabulary_degraded env store h).trans (load_from_file_eq env)
  refine ⟨hl, ?_, ?_⟩
  · unfold get_sections; rw [hl]
  · intro sect
    unfold get_categories
    rw [hl]
    cases lookupKey (env.fileVocab.getD []) sect <;> rfl

/-- Witness for C10 at a concrete unreachable-database environment with a
populated fallback file that the cache store never held. -/
theorem c10_witness :
    load_vocabulary
      ⟨true, true, false, false, some [("System", [("system.domain", ⟨"d", ["x"]⟩)])]⟩ [] =
      [("System", [("system.domain", ⟨"d", ["x"]⟩)])] ∧
    get_sections
      ⟨true, true, false, false, some [("System", [("system.domain", ⟨"d", ["x"]⟩)])]⟩ [] =
      ["System"] ∧
    get_categories
      ⟨true, true, false, false, some [("System", [("system.domain", ⟨"d", ["x"]⟩)])]⟩ []
      "System" = [("system.domain", ⟨"d", ["x"]⟩)] := by
  have h := c10_load_vocabulary_fallback
    ⟨true, true, false, false, some [("System", [("system.domain", ⟨"d", ["x"]⟩)])]⟩ []
    (Or.inl rfl)
  exact ⟨h.1, h.2.1, h.2.2 "System"⟩

theorem collectVocab_all_skipped (ps : List (String × String))
    (outcomes : String → PageOutcome)
    (h : ∀ pr ∈ ps, outcomes pr.1 = .missing ∨ outcomes pr.1 = .parsed []) :
    (collectVocab ps outcomes).1 = [] := by
  induction ps with
  | nil => rfl
  | cons hd tl ih =>
    have hhd := h hd (List.mem_cons_self hd tl)
    have htl : ∀ pr ∈ tl, outcomes pr.1 = .missing ∨ outcomes pr.1 = .parsed [] :=
      fun pr hm => h pr (List.mem_cons_of_mem hd hm)
    obtain ⟨page, sect⟩ := hd
    rcases hhd with hh | hh <;>
      simp [collectVocab, hh, ih htl]

/-- Claim C8: a sync run in which no wiki page produces non-empty
vocabulary (every page missing, failing to parse, or empty) returns
`(False, "No vocabulary data found in wiki pages")` and leaves the cache
store exactly as it was before the call. -/
theorem c8_sync_rejects_empty (env : SyncEnv) (store : Vocab)
    (hdb : env.useDb = true) (hclone : env.cloneResult = .ok ())
    (hfail : ∀ pr ∈ WIKI_PAGE_TO_SECTION,
      env.outcomes pr.1 = .missing ∨ env.outcomes pr.1 = .parsed []) :
    sync_from_wiki env store =
      ((false, "No vocabulary data found in wiki pages"), store) := by
  have hempty := collectVocab_all_skipped WIKI_PAGE_TO_SECTION env.outcomes hfail
  unfold sync_from_wiki
  rw [hdb, hclone]
  simp [hempty]

/-- Witness for C8: every page missing, a previously populated cache. -/
theorem c8_witness :
    sync_from_wiki ⟨true, .ok (), fun _ => .missing, .ok ()⟩
      [("Sample", [("sample.form", ⟨"", ["solid"]⟩)])] =
    ((false, "No vocabulary data found in wiki pages"),
     [("Sample", [("sample.form", ⟨"", ["solid"]⟩)])]) :=
  c8_sync_rejects_empty ⟨true, .ok (), fun _ => .missing, .ok ()⟩
    [("Sample", [("sample.form", ⟨"", ["solid"]⟩)])] rfl rfl
    (by intro pr _; exact Or.inl rfl)

theorem findProposal_update (table : ProposalTable) (id : Nat) (p : Proposal)
    (st rv cm : String) (now : Nat) (h : findProposal table id = some p) :
    findProposal (updateProposal table id st rv cm now) id =
      some { p with
             status := st
             reviewed_by := some rv
             reviewed_at := some now
             review_comment := some cm } := by
  induction table with
  | nil => simp [findProposal] at h
  | cons hd tl ih =>
    obtain ⟨i, q⟩ := hd
    by_cases hi : i = id
    · subst hi
      simp [findProposal] at h
      subst h
      simp [updateProposal, findProposal]
    · simp [findProposal, hi] at h
      have := ih h
      simp only [updateProposal, List.map_cons] at this ⊢
      simpa [findProposal, hi] using this

/-- Claim C6: `review_proposal` fails with "not found" on an unknown id;
on a proposal whose status is not pending it fails with "already reviewed"
and returns the table unmutated; a pending proposal transitions to the
given decision exactly once — a second review fails, leaves the table
unchanged, and the row keeps the status, reviewer and review time set by
the first review. -/
theorem c6_review_proposal_transitions (table : ProposalTable) (id : Nat)
    (decision reviewer comment : String) (now : Nat) :
    (findProposal table id = none →
      review_proposal table id decision reviewer comment now =
        ((false, "Proposal not found."), table)) ∧
    (∀ p, findProposal table id = some p → p.status ≠ "pending" →
      review_proposal table id decision reviewer comment now =
        ((false, "Proposal already " ++ p.status ++ "."), table)) ∧
    (∀ p, findProposal table id = some p → p.status = "pending" →
      decision ≠ "pending" →
      ∀ d2 r2 c2 n2,
        findProposal (review_proposal table id decision reviewer comment now).2 id =
          some { p with
                 status := decision
                 reviewed_by := some reviewer
                 reviewed_at := some now
                 review_comment := some comment } ∧
        review_proposal (review_proposal table id decision reviewer comment now).2
            id d2 r2 c2 n2 =
          ((false, "Proposal already " ++ decision ++ "."),
           (review_proposal table id decision reviewer comment now).2)) := by
  refine ⟨?_, ?_, ?_⟩
  · intro h
    unfold review_proposal
    rw [h]
  · intro p hp hst
    unfold review_proposal
    rw [hp]
    simp [hst]
  · intro p hp hst hdec d2 r2 c2 n2
    have hres : (review_proposal table id decision reviewer comment now).2 =
        updateProposal table id decision reviewer comment now := by
      unfold review_proposal
      rw [hp]
      simp [hst]
    have hfind := findProposal_update table id p decision reviewer comment now hp
    rw [hres]
    refine ⟨hfind, ?_⟩
    unfold review_proposal
    rw [hfind]
    simp [hdec]

/-- Witness for C6: a concrete pending proposal approved once, then
reviewed a second time. -/
theorem c6_witness :
    findProposal
      (review_proposal
        [(7, ⟨"add_term", "System", "system.domain", "simulated", "", "alice",
              "pending", none, none, none⟩)]
        7 "approved" "boss" "ok" 11).2 7 =
      some ⟨"add_term", "System", "system.domain", "simulated", "", "alice",
            "approved", some "boss", some 11, some "ok"⟩ ∧
    review_proposal
      (review_proposal
        [(7, ⟨"add_term", "System", "system.domain", "simulated", "", "alice",
              "pending", none, none, none⟩)]
        7 "approved" "boss" "ok" 11).2 7 "rejected" "eve" "no" 12 =
      ((false, "Proposal already approved."),
       (review_proposal
        [(7, ⟨"add_term", "System", "system.domain", "simulated", "", "alice",
              "pending", none, none, none⟩)]
        7 "approved" "boss" "ok" 11).2) :=
  (c6_review_proposal_transitions
    [(7, ⟨"add_term", "System", "system.domain", "simulated", "", "alice",
          "pending", none, none, none⟩)]
    7 "approved" "boss" "ok" 11).2.2
    ⟨"add_term", "System", "system.domain", "simulated", "", "alice",
     "pending", none, none, none⟩ rfl rfl (by decide) "rejected" "eve" "no" 12

theorem lookupKey_setKey_self {α : Type} (l : List (String × α)) (k : String)
    (v : α) : lookupKey (setKey l k v) k = some v := by
  induction l with
  | nil => simp [setKey, lookupKey]
  | cons hd tl ih =>
    obtain ⟨k', v'⟩ := hd
    by_cases hk : k' = k
    · simp [setKey, lookupKey, hk]
    · simp [setKey, lookupKey, hk, ih]

theorem sectCats_default (vocab : Vocab) (s : String) :
    sectCats
      (if lookupKey vocab s = none then setKey vocab s [] else vocab) s =
      sectCats vocab s := by
  by_cases h : lookupKey vocab s = none
  · simp [h, sectCats, lookupKey_setKey_self]
  · simp [h]

theorem applyChecks_defaulted_error (p : Proposal) (vocab : Vocab)
    (h : violatesRules p vocab) :
    ∃ m, applyChecks p
      (if lookupKey vocab p.sect = none then setKey vocab p.sect []
       else vocab) = .error m := by
  have hsc := sectCats_default vocab p.sect
  unfold applyChecks
  rcases h with ⟨ht, hnone⟩ | ⟨ht, cd, hsome, hmem⟩ | ⟨ht, hne⟩
  · rw [ht] at *
    simp [hsc, hnone]
  · rw [ht] at *
    simp [hsc, hsome, hmem]
  · rw [ht] at *
    rcases ho : lookupKey (sectCats vocab p.sect) p.category with _ | cd
    · exact absurd ho hne
    · simp [hsc, ho]

/-- Claim C7: a proposal violating a business rule against the current
vocabulary state — an `add_term` whose category does not exist in its
section, an `add_term` whose term is already in the category's allowed
values, or an `add_category` whose category already exists — makes
`apply_approved_proposal` return failure (success and push flags both
false) and leaves the cache store unchanged. -/
theorem c7_apply_rejects_rule_violations (p : Proposal) (env : ApplyEnv)
    (store : Vocab)
    (h : violatesRules p (load_vocabulary env.db store)) :
    (apply_approved_proposal p env store).1.1 = false ∧
    (apply_approved_proposal p env store).1.2.2 = false ∧
    (apply_approved_proposal p env store).2 = store := by
  obtain ⟨m, hm⟩ :=
    applyChecks_defaulted_error p (load_vocabulary env.db store) h
  simp [apply_approved_proposal, hm]

/-- Witness for C7: an `add_term` proposal whose term already exists. -/
theorem c7_witness :
    (apply_approved_proposal
      ⟨"add_term", "System", "system.domain", "experimental", "", "alice",
       "approved", some "boss", some 11, some "ok"⟩
      ⟨⟨true, true, true, false, none⟩, .ok (), .returned true "pushed"⟩
      [("System", [("system.domain", ⟨"d", ["experimental"]⟩)])]).1.1 = false ∧
    (apply_approved_proposal
      ⟨"add_term", "System", "system.domain", "experimental", "", "alice",
       "approved", some "boss", some 11, some "ok"⟩
      ⟨⟨true, true, true, false, none⟩, .ok (), .returned true "pushed"⟩
      [("System", [("system.domain", ⟨"d", ["experimental"]⟩)])]).1.2.2 = false ∧
    (apply_approved_proposal
      ⟨"add_term", "System", "system.domain", "experimental", "", "alice",
       "approved", some "boss", some 11, some "ok"⟩
      ⟨⟨true, true, true, false, none⟩, .ok (), .returned true "pushed"⟩
      [("System", [("system.domain", ⟨"d", ["experimental"]⟩)])]).2 =
      [("System", [("system.domain", ⟨"d", ["experimental"]⟩)])] :=
  c7_apply_rejects_rule_violations
    ⟨"add_term", "System", "system.domain", "experimental", "", "alice",
     "approved", some "boss", some 11, some "ok"⟩
    ⟨⟨true, true, true, false, none⟩, .ok (), .returned true "pushed"⟩
    [("System", [("system.domain", ⟨"d", ["experimental"]⟩)])]
    (Or.inr (Or.inl ⟨rfl, ⟨"d", ["experimental"]⟩, rfl, by decide⟩))

/-- Claim C4: when the business-rule checks pass and persisting the mutated
vocabulary to the cache succeeds, `apply_approved_proposal` returns overall
success with the cache holding the mutated vocabulary, whatever the wiki
push outcome: the third component equals the push outcome's success flag, a
push failure only attaches a warning to the message, and the cache content
does not depend on the push outcome (no rollback). -/
theorem c4_push_failure_keeps_cache (p : Proposal) (env : ApplyEnv)
    (store : Vocab) (vocabNew : Vocab)
    (hchecks : applyChecks p
      (if lookupKey (load_vocabulary env.db store) p.sect = none
       then setKey (load_vocabulary env.db store) p.sect []
       else load_vocabulary env.db store) = .ok vocabNew)
    (hdb : _use_database env.db = true)
    (hsave : env.saveResult = .ok ()) :
    apply_approved_proposal p env store =
      ((true,
        "Applied proposal: " ++ p.proposal_type ++
          (if pushOkFlag env.push then ""
           else " (wiki push warning: " ++ pushMsgOf env.push ++ ")"),
        pushOkFlag env.push), vocabNew) ∧
    ∀ push2,
      (apply_approved_proposal p ⟨env.db, env.saveResult, push2⟩ store).2 =
        vocabNew := by
  constructor
  · simp [apply_approved_proposal, hchecks, hdb, hsave, applyFinish]
  · intro push2
    simp [apply_approved_proposal, hchecks, hdb, hsave, applyFinish]

/-- Witness for C4: an `add_term` application whose wiki push fails; the
cache keeps the appended term. -/
theorem c4_witness :
    apply_approved_proposal
      ⟨"add_term", "System", "system.domain", "simulated", "", "alice",
       "approved", some "boss", some 11, some "ok"⟩
      ⟨⟨true, true, true, false, none⟩, .ok (), .returned false "boom"⟩
      [("System", [("system.domain", ⟨"d", ["experimental"]⟩)])] =
      ((true, "Applied proposal: add_term (wiki push warning: boom)", false),
       [("System", [("system.domain", ⟨"d", ["experimental", "simulated"]⟩)])]) :=
  (c4_push_failure_keeps_cache
    ⟨"add_term", "System", "system.domain", "simulated", "", "alice",
     "approved", some "boss", some 11, some "ok"⟩
    ⟨⟨true, true, true, false, none⟩, .ok (), .returned false "boom"⟩
    [("System", [("system.domain", ⟨"d", ["experimental"]⟩)])]
    [("System", [("system.domain", ⟨"d", ["experimental", "simulated"]⟩)])]
    rfl rfl rfl).1

theorem walkObj_found (kvs : List (String × Json)) (key : String)
    (rest b : List String) (v : Json) (h : alookup kvs key = some v) :
    walkObj kvs key rest b = walk v rest (b ++ [key]) := by
  induction kvs with
  | nil => simp [alookup] at h
  | cons hd tl ih =>
    obtain ⟨k', v'⟩ := hd
    by_cases hk : k' = key
    · subst hk
      simp [alookup] at h
      subst h
      simp [walkObj]
    · simp [alookup, hk] at h
      simpa [walkObj, hk] using ih h

theorem walkObj_notfound (kvs : List (String × Json)) (key : String)
    (rest b : List String) (h : alookup kvs key = none) :
    walkObj kvs key rest b = [] := by
  induction kvs with
  | nil => rfl
  | cons hd tl ih =>
    obtain ⟨k', v'⟩ := hd
    by_cases hk : k' = key
    · simp [alookup, hk] at h
    · simp [alookup, hk] at h
      simpa [walkObj, hk] using ih h

theorem walkArr_enumFrom (items : List Json) (r b : List String) (i : Nat) :
    walkArr items r b i =
      (List.enumFrom i items).flatMap fun iv =>
        walk iv.2 r (b ++ [toString iv.1]) := by
  induction items generalizing i with
  | nil => rfl
  | cons x tl ih =>
    simp [walkArr, List.enumFrom, ih]

/-- Claim C2: the path resolver descends into a mapping only when the next
segment is one of its keys, consuming that segment; a missing segment
yields no hits (and no error, the resolver being total); a sequence forks
over every element without consuming the segment, appending the element
index as a string to the concrete path; and for key `a.b` against a record
whose field `a` is a list of three elements each containing key `b`, it
returns exactly the 3 hits `a.0.b`, `a.1.b`, `a.2.b`. -/
theorem c2_resolve_path_spec :
    (∀ (kvs : List (String × Json)) key rest b v, alookup kvs key = some v →
      walk (.obj kvs) (key :: rest) b = walk v rest (b ++ [key])) ∧
    (∀ (kvs : List (String × Json)) key rest b, alookup kvs key = none →
      walk (.obj kvs) (key :: rest) b = []) ∧
    (∀ (items : List Json) key rest b,
      walk (.arr items) (key :: rest) b =
        items.enum.flatMap fun iv =>
          walk iv.2 (key :: rest) (b ++ [toString iv.1])) ∧
    resolve_path
      (.obj [("a", .arr [.obj [("b", .str "x")], .obj [("b", .str "y")],
                         .obj [("b", .str "z")]])]) ["a", "b"] =
      [("a.0.b", .str "x"), ("a.1.b", .str "y"), ("a.2.b", .str "z")] := by
  refine ⟨?_, ?_, ?_, rfl⟩
  · intro kvs key rest b v h
    simpa [walk] using walkObj_found kvs key rest b v h
  · intro kvs key rest b h
    simpa [walk] using walkObj_notfound kvs key rest b h
  · intro items key rest b
    simpa [walk, List.enum] using walkArr_enumFrom items (key :: rest) b 0

/-- Witness for C2 at concrete records: a consumed mapping segment, a
missing segment, and the three-element fork. -/
theorem c2_witness :
    walk (.obj [("a", .arr [.obj [("b", .str "x")]])]) ["a", "b"] [] =
      walk (.arr [.obj [("b", .str "x")]]) ["b"] ["a"] ∧
    walk (.obj [("a", .null)]) ["zzz"] [] = [] ∧
    resolve_path
      (.obj [("a", .arr [.obj [("b", .str "x")], .obj [("b", .str "y")],
                         .obj [("b", .str "z")]])]) ["a", "b"] =
      [("a.0.b", .str "x"), ("a.1.b", .str "y"), ("a.2.b", .str "z")] :=
  ⟨c2_resolve_path_spec.1 [("a", .arr [.obj [("b", .str "x")]])] "a" ["b"] []
      (.arr [.obj [("b", .str "x")]]) rfl,
   c2_resolve_path_spec.2.1 [("a", .null)] "zzz" [] [] rfl,
   c2_resolve_path_spec.2.2.2⟩

theorem checkHits_eq (hits : List (String × Json)) (k : String)
    (allowed : List String) :
    checkHits hits k allowed =
      hits.filterMap fun pv =>
        match pv.2 with
        | .str s =>
          if s ∈ allowed then none
          else some ⟨pv.1, violationMessage s k allowed⟩
        | _ => none := by
  induction hits with
  | nil => rfl
  | cons hd tl ih =>
    obtain ⟨p, v⟩ := hd
    cases v <;> simp [checkHits, ih]
    case str s => by_cases hs : s ∈ allowed <;> simp [hs]

theorem checkCategories_eq (record : Json) (cats : List (String × CatData)) :
    checkCategories record cats =
      cats.flatMap fun kd =>
        if kd.1 ∈ _SKIP_CATEGORIES then []
        else if kd.2.values = [] then []
        else (resolve_path record (splitOnDot kd.1)).filterMap fun pv =>
          match pv.2 with
          | .str s =>
            if s ∈ kd.2.values then none
            else some ⟨pv.1, violationMessage s kd.1 kd.2.values⟩
          | _ => none := by
  induction cats with
  | nil => rfl
  | cons hd tl ih =>
    obtain ⟨catKey, catData⟩ := hd
    by_cases hskip : catKey ∈ _SKIP_CATEGORIES
    · simp [checkCategories, hskip, ih]
    · by_cases hemp : catData.values = [] <;>
        simp [checkCategories, hskip, hemp, ih, checkHits_eq]

theorem checkSections_amended (record : Json) (vocab : Vocab) :
    checkSections record vocab = amendedViolations vocab record := by
  induction vocab with
  | nil => rfl
  | cons hd tl ih =>
    simp [checkSections, amendedViolations, checkCategories_eq, ih]

/-- Claim C3 as amended: `validate_record_vocabulary` emits exactly one
violation per string-typed leaf hit with a non-member value for every
category with a non-empty allowed list, except the categories of
`_SKIP_CATEGORIES` (here `descriptors.theoretical_metric`), which never
produce violations even with a non-empty list; non-string leaves and
empty-list categories never produce violations, and no other violations
are produced. -/
theorem c3_validate_contract_amended (vocab : Vocab) (record : Json) :
    validate_record_vocabulary vocab record = amendedViolations vocab record := by
  by_cases h : vocab = []
  · subst h; rfl
  · simp [validate_record_vocabulary, h, checkSections_amended]

/-- Counterexample to claim C3 as stated: the skip-listed category
`descriptors.theoretical_metric` has a non-empty allowed list and the
record holds a string leaf outside that list, yet the code emits no
violation, while the claimed contract demands exactly one. -/
theorem c3_counterexample :
    validate_record_vocabulary
      [("Descriptors", [("descriptors.theoretical_metric", ⟨"", ["bandgap"]⟩)])]
      (.obj [("descriptors", .obj [("theoretical_metric", .str "zzz")])]) = [] ∧
    claimedViolations
      [("Descriptors", [("descriptors.theoretical_metric", ⟨"", ["bandgap"]⟩)])]
      (.obj [("descriptors", .obj [("theoretical_metric", .str "zzz")])]) =
      [⟨"descriptors.theoretical_metric",
        violationMessage "zzz" "descriptors.theoretical_metric" ["bandgap"]⟩] :=
  ⟨rfl, by decide⟩

/-- Claim C1 as amended: a sync in which at least one page parses performs
a wholesale cache replace — afterwards the cache equals exactly the
vocabulary accumulated from the successfully parsed pages, so a dotted key
present before survives only if it is re-produced, and the previously
cached content of a failed page's section IS deleted; only a sync that
finds zero vocabulary leaves the cache untouched. -/
theorem c1_sync_wholesale_replace (env : SyncEnv) (store : Vocab)
    (hdb : env.useDb = true) (hclone : env.cloneResult = .ok ())
    (hsave : env.saveResult = .ok ()) :
    ((collectVocab WIKI_PAGE_TO_SECTION env.outcomes).1 ≠ [] →
      (sync_from_wiki env store).2 =
        (collectVocab WIKI_PAGE_TO_SECTION env.outcomes).1) ∧
    ((collectVocab WIKI_PAGE_TO_SECTION env.outcomes).1 = [] →
      (sync_from_wiki env store).2 = store) := by
  constructor <;> intro h <;>
    simp [sync_from_wiki, hdb, hclone, hsave, h]

/-- Counterexample to claim C1 as stated: one page parses, the others fail;
the sync succeeds, yet the previously cached key `sample.form` of the
failed `Sample` page is no longer in the cache afterwards. -/
theorem c1_counterexample :
    (sync_from_wiki
      ⟨true, .ok (),
       fun p => if p = "Record-Overview"
                then .parsed [("record.type", some ⟨"", ["dataset"]⟩)]
                else .missing, .ok ()⟩
      [("Sample", [("sample.form", ⟨"", ["solid"]⟩)])]).1.1 = true ∧
    cacheHasKey [("Sample", [("sample.form", ⟨"", ["solid"]⟩)])]
      "sample.form" = true ∧
    (sync_from_wiki
      ⟨true, .ok (),
       fun p => if p = "Record-Overview"
                then .parsed [("record.type", some ⟨"", ["dataset"]⟩)]
                else .missing, .ok ()⟩
      [("Sample", [("sample.form", ⟨"", ["solid"]⟩)])]).2 =
      [("Record Info", [("record.type", ⟨"", ["dataset"]⟩)])] ∧
    cacheHasKey
      (sync_from_wiki
        ⟨true, .ok (),
         fun p => if p = "Record-Overview"
                  then .parsed [("record.type", some ⟨"", ["dataset"]⟩)]
                  else .missing, .ok ()⟩
        [("Sample", [("sample.form", ⟨"", ["solid"]⟩)])]).2
      "sample.form" = false :=
  ⟨rfl, rfl, rfl, rfl⟩

/-- Witness for the amended C1 at the one-parsed-page environment. -/
theorem c1_witness :
    (sync_from_wiki
      ⟨true, .ok (),
       fun p => if p = "Sample"
                then .parsed [("sample.form", some ⟨"", ["solid", "powder"]⟩)]
                else .missing, .ok ()⟩
      [("System", [("system.domain", ⟨"", ["experimental"]⟩)])]).2 =
      (collectVocab WIKI_PAGE_TO_SECTION
        (fun p => if p = "Sample"
                  then .parsed [("sample.form", some ⟨"", ["solid", "powder"]⟩)]
                  else .missing)).1 :=
  (c1_sync_wholesale_replace
    ⟨true, .ok (),
     fun p => if p = "Sample"
              then .parsed [("sample.form", some ⟨"", ["solid", "powder"]⟩)]
              else .missing, .ok ()⟩
    [("System", [("system.domain", ⟨"", ["experimental"]⟩)])]
    rfl rfl rfl).1 (by decide)

theorem lexLt_asymm : ∀ a b : Chars, lexLt a b = true → lexLt b a = false
  | [], [] => by simp [lexLt]
  | [], _ :: _ => by simp [lexLt]
  | _ :: _, [] => by simp [lexLt]
  | a :: as, b :: bs => by
    intro h
    simp only [lexLt] at h ⊢
    by_cases h1 : a.toNat < b.toNat
    · have h2 : ¬ b.toNat < a.toNat := by omega
      simp [h1, h2]
    · by_cases h2 : b.toNat < a.toNat
      · simp [h1, h2] at h
      · simp only [h1, h2, if_false] at h ⊢
        simp [lexLt_asymm as bs h]

theorem lexLt_trans : ∀ a b c : Chars,
    lexLt a b = true → lexLt b c = true → lexLt a c = true
  | [], b, [] => by
    intro h1 h2
    cases b <;> simp [lexLt] at h1 h2
  | [], _, _ :: _ => by
    intro _ _
    simp [lexLt]
  | _ :: _, b, [] => by
    intro h1 h2
    cases b <;> simp [lexLt] at h2
  | _ :: _, [], _ :: _ => by
    intro h1 _
    simp [lexLt] at h1
  | a :: as, b :: bs, c :: cs => by
    intro h1 h2
    simp only [lexLt] at h1 h2 ⊢
    by_cases hab : a.toNat < b.toNat <;> by_cases hbc : b.toNat < c.toNat
    · have hac : a.toNat < c.toNat := by omega
      simp [hac]
    · by_cases hcb : c.toNat < b.toNat
      · simp [hbc, hcb] at h2
      · have hac : a.toNat < c.toNat := by omega
        simp [hac]
    · by_cases hba : b.toNat < a.toNat
      · simp [hab, hba] at h1
      · have hac : a.toNat < c.toNat := by omega
        simp [hac]
    · by_cases hba : b.toNat < a.toNat
      · simp [hab, hba] at h1
      · by_cases hcb : c.toNat < b.toNat
        · simp [hbc, hcb] at h2
        · have hac : ¬ a.toNat < c.toNat := by omega
          have hca : ¬ c.toNat < a.toNat := by omega
          simp only [hab, hba, if_false] at h1
          simp only [hbc, hcb, if_false] at h2
          simp [hac, hca, lexLt_trans as bs cs h1 h2]

theorem lexLt_total : ∀ a b : Chars, a ≠ b →
    lexLt a b = true ∨ lexLt b a = true
  | [], [] => by intro h; exact absurd rfl h
  | [], _ :: _ => by intro _; left; simp [lexLt]
  | _ :: _, [] => by intro _; right; simp [lexLt]
  | a :: as, b :: bs => by
    intro h
    simp only [lexLt]
    by_cases hab : a.toNat < b.toNat
    · left; simp [hab]
    · by_cases hba : b.toNat < a.toNat
      · right; simp [hba]
      · have heq : a = b := by
          have hn : a.toNat = b.toNat := by omega
          exact Char.ext (UInt32.ext hn)
        subst heq
        have hne : as ≠ bs := by
          intro he
          exact h (by rw [he])
        rcases lexLt_total as bs hne with ht | ht
        · left; simp [hab, hba, ht]
        · right; simp [hab, hba, ht]

theorem insertSorted5_perm (x : Chars × Cat5) :
    ∀ l : Vocab5, (insertSorted5 x l).Perm (x :: l)
  | [] => List.Perm.refl _
  | y :: tl => by
    simp only [insertSorted5]
    by_cases h : lexLt y.1 x.1 = true
    · simp only [h, if_true]
      exact ((insertSorted5_perm x tl).cons y).trans (List.Perm.swap x y tl)
    · simp [h]

theorem sortVocab5_perm : ∀ l : Vocab5, (sortVocab5 l).Perm l
  | [] => List.Perm.refl _
  | x :: tl =>
    (insertSorted5_perm x (sortVocab5 tl)).trans ((sortVocab5_perm tl).cons x)

theorem insertSorted5_pairwise (x : Chars × Cat5) :
    ∀ l : Vocab5, l.Pairwise keyLt → (∀ y ∈ l, y.1 ≠ x.1) →
      (insertSorted5 x l).Pairwise keyLt
  | [] => by simp [insertSorted5]
  | y :: tl => by
    intro hp hne
    rw [List.pairwise_cons] at hp
    simp only [insertSorted5]
    by_cases h : lexLt y.1 x.1 = true
    · rw [if_pos h, List.pairwise_cons]
      constructor
      · intro z hz
        rcases List.mem_cons.mp ((insertSorted5_perm x tl).mem_iff.mp hz) with
          rfl | hz'
        · exact h
        · exact hp.1 z hz'
      · exact insertSorted5_pairwise x tl hp.2
          (fun z hz => hne z (List.mem_cons_of_mem _ hz))
    · rw [if_neg h]
      have hxy : keyLt x y := by
        have hne' : y.1 ≠ x.1 := hne y (List.mem_cons_self _ _)
        rcases lexLt_total x.1 y.1 (fun he => hne' he.symm) with ht | ht
        · exact ht
        · exact absurd ht h
      rw [List.pairwise_cons]
      constructor
      · intro z hz
        rcases List.mem_cons.mp hz with rfl | hz'
        · exact hxy
        · exact lexLt_trans _ _ _ hxy (hp.1 z hz')
      · rw [List.pairwise_cons]
        exact hp

theorem sortVocab5_pairwise : ∀ l : Vocab5, (l.map Prod.fst).Nodup →
    (sortVocab5 l).Pairwise keyLt
  | [] => by simp [sortVocab5]
  | x :: tl => by
    intro hnd
    simp only [List.map_cons, List.nodup_cons] at hnd
    simp only [sortVocab5]
    apply insertSorted5_pairwise
    · exact sortVocab5_pairwise tl hnd.2
    · intro y hy he
      have hmem : y ∈ tl := (sortVocab5_perm tl).mem_iff.mp hy
      exact hnd.1 (he ▸ List.mem_map_of_mem Prod.fst hmem)

theorem sortVocab5_fixed : ∀ l : Vocab5, l.Pairwise keyLt → sortVocab5 l = l
  | [] => by intro _; rfl
  | y :: tl => by
    intro hp
    rw [List.pairwise_cons] at hp
    simp only [sortVocab5]
    rw [sortVocab5_fixed tl hp.2]
    cases tl with
    | nil => rfl
    | cons z tl' =>
      have hyz : keyLt y z := hp.1 z (List.mem_cons_self _ _)
      have hzy : lexLt z.1 y.1 = false := lexLt_asymm _ _ hyz
      simp [insertSorted5, hzy]

theorem sortVocab5_idem (l : Vocab5) (h : (l.map Prod.fst).Nodup) :
    sortVocab5 (sortVocab5 l) = sortVocab5 l :=
  sortVocab5_fixed _ (sortVocab5_pairwise l h)

theorem sortVocab5_eq_of_perm (l m : Vocab5) (hperm : l.Perm m)
    (hnd : (l.map Prod.fst).Nodup) : sortVocab5 l = sortVocab5 m := by
  have hndm : (m.map Prod.fst).Nodup := ((hperm.map Prod.fst).nodup_iff).mp hnd
  have hs1 := sortVocab5_pairwise l hnd
  have hs2 := sortVocab5_pairwise m hndm
  have hp : (sortVocab5 l).Perm (sortVocab5 m) :=
    ((sortVocab5_perm l).trans hperm).trans (sortVocab5_perm m).symm
  haveI : IsAntisymm (Chars × Cat5) keyLt :=
    ⟨fun a b hab hba => absurd hba (by simp [keyLt, lexLt_asymm _ _ hab])⟩
  exact List.eq_of_perm_of_sorted hp hs1 hs2

theorem splitNewline_cons_newline (r : Chars) :
    splitNewline ('\n' :: r) = [] :: splitNewline r := by
  simp [splitNewline]

theorem splitNewline_ne_nil (s : Chars) : splitNewline s ≠ [] := by
  induction s with
  | nil => simp [splitNewline]
  | cons c tl ih =>
    simp only [splitNewline]
    by_cases h : c = '\n'
    · simp [h]
    · simp only [h, if_false]
      split <;> simp

theorem splitNewline_append (l r : Chars) (h : '\n' ∉ l) :
    splitNewline (l ++ '\n' :: r) = l :: splitNewline r := by
  induction l with
  | nil => simp [splitNewline]
  | cons c tl ih =>
    have hc : c ≠ '\n' := fun he => h (he ▸ List.mem_cons_self _ _)
    have htl : '\n' ∉ tl := fun hm => h (List.mem_cons_of_mem _ hm)
    rw [List.cons_append]
    simp only [splitNewline, hc, if_false, List.append_eq]
    rw [ih htl]

theorem splitNewline_no_newline (l : Chars) (h : '\n' ∉ l) :
    splitNewline l = [l] := by
  induction l with
  | nil => rfl
  | cons c tl ih =>
    have hc : c ≠ '\n' := fun he => h (he ▸ List.mem_cons_self _ _)
    have htl : '\n' ∉ tl := fun hm => h (List.mem_cons_of_mem _ hm)
    simp only [splitNewline, hc, if_false]
    rw [ih htl]

theorem splitNewline_join (ls : List Chars) (r : Chars)
    (h : ∀ l ∈ ls, '\n' ∉ l) :
    splitNewline (joinNewline ls ++ '\n' :: r) =
      (if ls = [] then [[]] else ls) ++ splitNewline r := by
  induction ls with
  | nil => simp [joinNewline, splitNewline]
  | cons l tl ih =>
    have hl : '\n' ∉ l := h l (List.mem_cons_self _ _)
    have htl : ∀ x ∈ tl, '\n' ∉ x := fun x hx => h x (List.mem_cons_of_mem _ hx)
    cases tl with
    | nil => simp [joinNewline, splitNewline_append l r hl]
    | cons l2 tl2 =>
      have hj : joinNewline (l :: l2 :: tl2) =
          l ++ '\n' :: joinNewline (l2 :: tl2) := rfl
      rw [hj, List.append_assoc, List.cons_append,
        splitNewline_append l _ hl]
      rw [ih htl]
      simp

theorem splitCommaSpace_ne_nil : ∀ s : Chars, splitCommaSpace s ≠ []
  | [] => by simp [splitCommaSpace]
  | [_] => by simp [splitCommaSpace]
  | _ :: _ :: _ => by
    simp only [splitCommaSpace]
    split
    · simp
    · split <;> simp

theorem splitCommaSpace_append (v r : Chars) (h : ',' ∉ v) :
    splitCommaSpace (v ++ ',' :: ' ' :: r) = v :: splitCommaSpace r := by
  induction v with
  | nil => simp [splitCommaSpace]
  | cons c tl ih =>
    have hc : c ≠ ',' := fun he => h (he ▸ List.mem_cons_self _ _)
    have htl : ',' ∉ tl := fun hm => h (List.mem_cons_of_mem _ hm)
    cases tl with
    | nil =>
      show splitCommaSpace (c :: ',' :: ' ' :: r) = [c] :: splitCommaSpace r
      have hin : splitCommaSpace (',' :: ' ' :: r) = [] :: splitCommaSpace r := by
        simp [splitCommaSpace]
      simp [splitCommaSpace, hin, hc]
    | cons c2 tl2 =>
      show splitCommaSpace (c :: c2 :: (tl2 ++ ',' :: ' ' :: r)) =
        (c :: c2 :: tl2) :: splitCommaSpace r
      have hin := ih htl
      rw [List.cons_append] at hin
      simp [splitCommaSpace, hin, hc]

theorem splitCommaSpace_no_comma (v : Chars) (hv : v ≠ []) (h : ',' ∉ v) :
    splitCommaSpace v = [v] := by
  induction v with
  | nil => exact absurd rfl hv
  | cons c tl ih =>
    have hc : c ≠ ',' := fun he => h (he ▸ List.mem_cons_self _ _)
    have htl : ',' ∉ tl := fun hm => h (List.mem_cons_of_mem _ hm)
    cases tl with
    | nil => rfl
    | cons c2 tl2 =>
      have hsep : (c = ',' && c2 = ' ') = false := by simp [hc]
      simp only [splitCommaSpace, hsep, Bool.false_eq_true, if_false]
      rw [ih (by simp) htl]

theorem splitCommaSpace_join (vs : List Chars) (hne : vs ≠ [])
    (h : ∀ v ∈ vs, v ≠ [] ∧ ',' ∉ v) :
    splitCommaSpace (joinCommaSpace vs) = vs := by
  induction vs with
  | nil => exact absurd rfl hne
  | cons v tl ih =>
    have hv := h v (List.mem_cons_self _ _)
    have htl : ∀ x ∈ tl, x ≠ [] ∧ ',' ∉ x :=
      fun x hx => h x (List.mem_cons_of_mem _ hx)
    cases tl with
    | nil => simp [joinCommaSpace, splitCommaSpace_no_comma v hv.1 hv.2]
    | cons v2 tl2 =>
      have hj : joinCommaSpace (v :: v2 :: tl2) =
          v ++ ',' :: ' ' :: joinCommaSpace (v2 :: tl2) := rfl
      rw [hj, splitCommaSpace_append v _ hv.2, ih (by simp) htl]

theorem charsHavePrefix_append (p r : Chars) :
    charsHavePrefix p (p ++ r) = true := by
  induction p with
  | nil => rfl
  | cons c tl ih => simp [charsHavePrefix, ih]

theorem dropPre_append (p r : Chars) : dropPre p (p ++ r) = some r := by
  unfold dropPre
  rw [if_pos (charsHavePrefix_append p r)]
  simp

theorem plainSafe_excludes (c : Char) (h : plainSafeChar c = true) :
    c ≠ '\n' ∧ c ≠ Char.ofNat 96 ∧ c ≠ ',' ∧ c ≠ ':' := by
  refine ⟨?_, ?_, ?_, ?_⟩ <;> (rintro rfl; revert h; decide)

theorem wfValue_ne_nil_no_comma (x : Chars) (h : wfValueChars x = true) :
    x ≠ [] ∧ ',' ∉ x := by
  unfold wfValueChars at h
  simp only [Bool.and_eq_true] at h
  obtain ⟨⟨⟨⟨⟨h1, h2⟩, _⟩, _⟩, _⟩, _⟩ := h
  constructor
  · intro he; subst he; simp at h1
  · intro hm
    have hc := List.all_eq_true.mp h2 ',' hm
    exact absurd hc (by decide)

theorem parseKeyLine_render (k : Chars) (hk : wfKeyChars k = true) :
    parseKeyLine (k ++ [':']) = some k := by
  unfold wfKeyChars at hk
  simp only [Bool.and_eq_true] at hk
  obtain ⟨⟨⟨h1, h2⟩, h3⟩, _⟩ := hk
  have h3' : ' ' ∉ k := by simpa using h3
  unfold parseKeyLine
  rw [List.reverse_append]
  simp [List.reverse_reverse, h1, h2, h3']

theorem parseDescLine_render (d : Chars) (hd : wfDescChars d = true) :
    parseDescLine ("  description: \"".toList ++ d ++ ['"']) = some d := by
  unfold parseDescLine
  rw [List.append_assoc, dropPre_append]
  simp [List.reverse_append, List.reverse_reverse, hd]

theorem parseValsLine_render (vs : List Chars) (hv : vs.all wfValueChars = true) :
    parseValsLine ("  values: [".toList ++ joinCommaSpace vs ++ [']']) =
      some vs := by
  unfold parseValsLine
  rw [List.append_assoc, dropPre_append]
  cases vs with
  | nil => simp [joinCommaSpace]
  | cons v tl =>
    have hall : ∀ x ∈ v :: tl, wfValueChars x = true :=
      fun x hx => List.all_eq_true.mp hv x hx
    have hvfacts := wfValue_ne_nil_no_comma v (hall v (List.mem_cons_self _ _))
    have hmidne : joinCommaSpace (v :: tl) ≠ [] := by
      cases tl with
      | nil => simpa [joinCommaSpace] using hvfacts.1
      | cons v2 tl2 => simp [joinCommaSpace, hvfacts.1]
    have hsplit : splitCommaSpace (joinCommaSpace (v :: tl)) = v :: tl :=
      splitCommaSpace_join (v :: tl) (by simp)
        (fun x hx => wfValue_ne_nil_no_comma x (hall x hx))
    simp [List.reverse_append, List.reverse_reverse, hmidne, hsplit, hv]

theorem parseVocabLines_render : ∀ entries : Vocab5,
    (∀ e ∈ entries, wfEntry e = true) →
    parseVocabLines (entries.flatMap fun kd => renderEntry kd.1 kd.2) =
      some entries
  | [] => by intro _; rfl
  | (k, cd) :: tl => by
    intro h
    have he := h (k, cd) (List.mem_cons_self _ _)
    unfold wfEntry at he
    simp only [Bool.and_eq_true] at he
    obtain ⟨⟨hk, hdesc⟩, hvals⟩ := he
    have htl : ∀ e ∈ tl, wfEntry e = true :=
      fun e hm => h e (List.mem_cons_of_mem _ hm)
    have hshape : (((k, cd) :: tl).flatMap fun kd => renderEntry kd.1 kd.2) =
        (k ++ [':']) ::
          ("  description: \"".toList ++ cd.description ++ ['"']) ::
          ("  values: [".toList ++ joinCommaSpace cd.values ++ [']']) ::
          (tl.flatMap fun kd => renderEntry kd.1 kd.2) := rfl
    rw [hshape]
    unfold parseVocabLines
    rw [parseKeyLine_render k hk, parseDescLine_render cd.description hdesc,
      parseValsLine_render cd.values hvals, parseVocabLines_render tl htl]

theorem noTicks (l : Chars) (h : Char.ofNat 96 ∉ l) :
    containsTicks l = false := by
  unfold containsTicks
  induction l with
  | nil => rfl
  | cons c tl ih =>
    have hc : c ≠ Char.ofNat 96 := fun he => h (he ▸ List.mem_cons_self _ _)
    have htl : Char.ofNat 96 ∉ tl := fun hm => h (List.mem_cons_of_mem _ hm)
    have hpat : "```".toList =
        Char.ofNat 96 :: Char.ofNat 96 :: Char.ofNat 96 :: [] := by decide
    have hpre : charsHavePrefix "```".toList (c :: tl) = false := by
      rw [hpat]
      simp [charsHavePrefix, Ne.symm hc]
    simp only [dropAfterSub, hpre, Bool.false_eq_true, if_false]
    exact ih htl

theorem no_newline_noTicks (l : Chars)
    (h : l.all (fun c => c != '\n' && c != Char.ofNat 96) = true) :
    '\n' ∉ l ∧ containsTicks l = false := by
  constructor
  · intro hm
    have hc := List.all_eq_true.mp h '\n' hm
    simp at hc
  · apply noTicks
    intro hm
    have hc := List.all_eq_true.mp h (Char.ofNat 96) hm
    simp at hc

theorem isBlank_append_right (p r : Chars) (h : isBlank r = false) :
    isBlank (p ++ r) = false := by
  simp only [isBlank, List.all_append] at h ⊢
  simp [h]

theorem mem_joinCommaSpace : ∀ (vs : List Chars) (c : Char),
    c ∈ joinCommaSpace vs → c = ',' ∨ c = ' ' ∨ ∃ v ∈ vs, c ∈ v
  | [] => by intro c hc; simp [joinCommaSpace] at hc
  | [v] => by
    intro c hc
    simp only [joinCommaSpace] at hc
    exact Or.inr (Or.inr ⟨v, by simp, hc⟩)
  | v :: v2 :: tl => by
    intro c hc
    have hj : joinCommaSpace (v :: v2 :: tl) =
        v ++ ',' :: ' ' :: joinCommaSpace (v2 :: tl) := rfl
    rw [hj] at hc
    rcases List.mem_append.mp hc with hm | hm
    · exact Or.inr (Or.inr ⟨v, by simp, hm⟩)
    · rcases List.mem_cons.mp hm with rfl | hm2
      · exact Or.inl rfl
      · rcases List.mem_cons.mp hm2 with rfl | hm3
        · exact Or.inr (Or.inl rfl)
        · rcases mem_joinCommaSpace (v2 :: tl) c hm3 with h | h | ⟨w, hw, hcw⟩
          · exact Or.inl h
          · exact Or.inr (Or.inl h)
          · exact Or.inr (Or.inr ⟨w, List.mem_cons_of_mem _ hw, hcw⟩)

theorem renderEntry_props (k : Chars) (cd : Cat5)
    (he : wfEntry (k, cd) = true) :
    ∀ l ∈ renderEntry k cd,
      '\n' ∉ l ∧ containsTicks l = false ∧ isBlank l = false := by
  unfold wfEntry at he
  simp only [Bool.and_eq_true] at he
  obtain ⟨⟨hk, hdesc⟩, hvals⟩ := he
  have hsafeK : k.all (fun c => c != '\n' && c != Char.ofNat 96) = true := by
    unfold wfKeyChars at hk
    simp only [Bool.and_eq_true] at hk
    refine List.all_eq_true.mpr fun c hc => ?_
    have hp := plainSafe_excludes c (List.all_eq_true.mp hk.1.1.2 c hc)
    simp [hp.1, hp.2.1]
  have hsafeD : cd.description.all
      (fun c => c != '\n' && c != Char.ofNat 96) = true := by
    unfold wfDescChars at hdesc
    refine List.all_eq_true.mpr fun c hc => ?_
    have hp := List.all_eq_true.mp hdesc c hc
    have hp' : c ∉ ['"', '\\', '\n', Char.ofNat 96] := by simpa using hp
    have hn : c ≠ '\n' := fun he => hp' (by rw [he]; simp)
    have hb : c ≠ Char.ofNat 96 := fun he => hp' (by rw [he]; simp)
    simp [hn, hb]
  have hsafeV : (joinCommaSpace cd.values).all
      (fun c => c != '\n' && c != Char.ofNat 96) = true := by
    refine List.all_eq_true.mpr fun c hc => ?_
    rcases mem_joinCommaSpace cd.values c hc with rfl | rfl | ⟨w, hw, hcw⟩
    · decide
    · decide
    · have hwv := List.all_eq_true.mp hvals w hw
      unfold wfValueChars at hwv
      simp only [Bool.and_eq_true] at hwv
      have hp := plainSafe_excludes c (List.all_eq_true.mp hwv.1.1.1.1.2 c hcw)
      simp [hp.1, hp.2.1]
  intro l hl
  simp only [renderEntry, List.mem_cons, List.not_mem_nil, or_false] at hl
  rcases hl with rfl | rfl | rfl
  · have hsafe : (k ++ [':']).all
        (fun c => c != '\n' && c != Char.ofNat 96) = true := by
      simp [List.all_append, hsafeK]
    refine ⟨(no_newline_noTicks _ hsafe).1, (no_newline_noTicks _ hsafe).2,
      isBlank_append_right k [':'] (by decide)⟩
  · have hsafe : ("  description: \"".toList ++ cd.description ++ ['"']).all
        (fun c => c != '\n' && c != Char.ofNat 96) = true := by
      simp only [List.all_append, Bool.and_eq_true]
      exact ⟨⟨by decide, hsafeD⟩, by decide⟩
    refine ⟨(no_newline_noTicks _ hsafe).1, (no_newline_noTicks _ hsafe).2,
      isBlank_append_right _ ['"'] (by decide)⟩
  · have hsafe : ("  values: [".toList ++ joinCommaSpace cd.values ++ [']']).all
        (fun c => c != '\n' && c != Char.ofNat 96) = true := by
      simp only [List.all_append, Bool.and_eq_true]
      exact ⟨⟨by decide, hsafeV⟩, by decide⟩
    refine ⟨(no_newline_noTicks _ hsafe).1, (no_newline_noTicks _ hsafe).2,
      isBlank_append_right _ [']'] (by decide)⟩

theorem grabContent_append (ls : List Chars) (last : Chars)
    (h : ∀ l ∈ ls, containsTicks l = false) (hl : containsTicks last = true) :
    grabContent (ls ++ [last]) = some ls := by
  induction ls with
  | nil => simp [grabContent, hl]
  | cons l tl ih =>
    have h1 := h l (List.mem_cons_self _ _)
    simp [grabContent, h1, ih (fun x hx => h x (List.mem_cons_of_mem _ hx))]

theorem splitNewline_embed (block : Chars) :
    splitNewline (embedPage block) =
      "## Controlled Vocabulary".toList :: ([] : Chars) ::
        "```yaml".toList :: splitNewline (block ++ '\n' :: "```".toList) := by
  have hdec : "## Controlled Vocabulary\n\n```yaml\n".toList =
      "## Controlled Vocabulary".toList ++ '\n' ::
        ('\n' :: ("```yaml".toList ++ ['\n'])) := by decide
  have hsuf : "\n```".toList = '\n' :: "```".toList := by decide
  unfold embedPage
  rw [hdec, hsuf]
  simp only [List.append_assoc, List.cons_append, List.singleton_append,
    List.nil_append]
  rw [splitNewline_append _ _ (by decide), splitNewline_cons_newline,
    splitNewline_append _ _ (by decide)]

theorem extract_embed (v : Vocab5) (hwf : WellFormedVocab5 v) :
    _parse_yaml_from_markdown (embedPage (_regenerate_yaml_block v)) =
      sortVocab5 v := by
  obtain ⟨hall, hnd⟩ := hwf
  have hent : ∀ e ∈ sortVocab5 v, wfEntry e = true := fun e hm =>
    List.all_eq_true.mp hall e ((sortVocab5_perm v).mem_iff.mp hm)
  have hlines : ∀ l ∈ vocabLines v,
      '\n' ∉ l ∧ containsTicks l = false ∧ isBlank l = false := by
    intro l hl
    unfold vocabLines at hl
    rcases List.mem_flatMap.mp hl with ⟨e, he, hle⟩
    obtain ⟨k, cd⟩ := e
    exact renderEntry_props k cd (hent (k, cd) he) l hle
  unfold _regenerate_yaml_block _parse_yaml_from_markdown
  rw [splitNewline_embed,
    splitNewline_join (vocabLines v) _ (fun l hl => (hlines l hl).1),
    splitNewline_no_newline _ (by decide)]
  by_cases hvl : vocabLines v = []
  · have hs : sortVocab5 v = [] := by
      rcases hse : sortVocab5 v with _ | ⟨e, tl⟩
      · rfl
      · exfalso
        unfold vocabLines at hvl
        rw [hse] at hvl
        simp [renderEntry] at hvl
    rw [if_pos hvl, hs]
    decide
  · rw [if_neg hvl]
    have hatx : isAtxHeading ("## Controlled Vocabulary".toList) = true := by
      decide
    have hgrab : grabFence (([] : Chars) :: "```yaml".toList ::
        (vocabLines v ++ ["```".toList])) = some (vocabLines v) := by
      unfold grabFence
      have h1 : isBlank ([] : Chars) = true := rfl
      have h2 : ¬ isBlank ("```yaml".toList) = true := by decide
      rw [List.dropWhile_cons, if_pos h1, List.dropWhile_cons, if_neg h2]
      show (if isYamlFence ("```yaml".toList) = true then
          grabContent (vocabLines v ++ ["```".toList]) else none) =
        some (vocabLines v)
      rw [if_pos (show isYamlFence ("```yaml".toList) = true from by decide)]
      exact grabContent_append (vocabLines v) _
        (fun l hl => (hlines l hl).2.1) (by decide)
    have hfind : findBlock ("## Controlled Vocabulary".toList ::
        ([] : Chars) :: "```yaml".toList ::
        (vocabLines v ++ ["```".toList])) = some (vocabLines v) := by
      show (if isAtxHeading ("## Controlled Vocabulary".toList) = true then
          match grabFence (([] : Chars) :: "```yaml".toList ::
            (vocabLines v ++ ["```".toList])) with
          | some b => some b
          | none => findBlock (([] : Chars) :: "```yaml".toList ::
              (vocabLines v ++ ["```".toList]))
        else if (isSetextText ("## Controlled Vocabulary".toList) &&
            isDashUnderline ([] : Chars)) = true then
          match grabFence ("```yaml".toList ::
            (vocabLines v ++ ["```".toList])) with
          | some b => some b
          | none => findBlock (([] : Chars) :: "```yaml".toList ::
              (vocabLines v ++ ["```".toList]))
        else findBlock (([] : Chars) :: "```yaml".toList ::
            (vocabLines v ++ ["```".toList]))) = some (vocabLines v)
      rw [if_pos hatx, hgrab]
    rw [hfind]
    have hfilter : (vocabLines v).filter (fun l => !isBlank l) = vocabLines v :=
      List.filter_eq_self.mpr fun l hl => by simp [(hlines l hl).2.2]
    show (match parseVocabLines ((vocabLines v).filter fun l => !isBlank l) with
          | some w => w
          | none => []) = sortVocab5 v
    rw [hfilter]
    rw [show vocabLines v =
        ((sortVocab5 v).flatMap fun kd => renderEntry kd.1 kd.2) from rfl,
      parseVocabLines_render (sortVocab5 v) hent]

/-- Claim C5 as amended: `_regenerate_yaml_block` is deterministic — any
reordering of the same well-formed mapping renders byte-identically — and
emits categories in ascending key order; and the round trip holds once the
rendered block is embedded in a wiki page under the `Controlled Vocabulary`
heading (the form `push_change_to_wiki` writes): parsing that page and
re-rendering is byte-identical.  As literally composed, without the
heading embedding, the round trip fails (see the counterexample). -/
theorem c5_render_roundtrip_amended (v w : Vocab5)
    (hwf : WellFormedVocab5 v) (hperm : v.Perm w) :
    _regenerate_yaml_block w = _regenerate_yaml_block v ∧
    ((sortVocab5 v).Perm v ∧ (sortVocab5 v).Pairwise keyLt ∧
      _regenerate_yaml_block v =
        joinNewline ((sortVocab5 v).flatMap fun kd => renderEntry kd.1 kd.2)) ∧
    _regenerate_yaml_block
      (_parse_yaml_from_markdown (embedPage (_regenerate_yaml_block v))) =
      _regenerate_yaml_block v := by
  obtain ⟨hall, hnd⟩ := hwf
  refine ⟨?_, ⟨sortVocab5_perm v, sortVocab5_pairwise v hnd, rfl⟩, ?_⟩
  · have hs : sortVocab5 w = sortVocab5 v :=
      sortVocab5_eq_of_perm w v hperm.symm
        ((hperm.map Prod.fst).nodup_iff.mp hnd)
    unfold _regenerate_yaml_block vocabLines
    rw [hs]
  · rw [extract_embed v ⟨hall, hnd⟩]
    unfold _regenerate_yaml_block vocabLines
    rw [sortVocab5_idem v hnd]

/-- Counterexample to claim C5 as stated: for a well-formed non-empty
vocabulary, `_regenerate_yaml_block` emits a bare YAML block without the
`Controlled Vocabulary` heading that `_parse_yaml_from_markdown` requires,
so the literal composition collapses to rendering the empty mapping and the
round-trip equality fails. -/
theorem c5_counterexample :
    WellFormedVocab5
      [("system.domain".toList,
        ⟨"The domain".toList,
         ["experimental".toList, "computational".toList]⟩)] ∧
    _regenerate_yaml_block
      (_parse_yaml_from_markdown (_regenerate_yaml_block
        [("system.domain".toList,
          ⟨"The domain".toList,
           ["experimental".toList, "computational".toList]⟩)])) ≠
      _regenerate_yaml_block
        [("system.domain".toList,
          ⟨"The domain".toList,
           ["experimental".toList, "computational".toList]⟩)] :=
  ⟨⟨by decide, by decide⟩, by decide⟩

/-- Witness for the amended C5 at a concrete two-entry vocabulary and a
reordering of it. -/
theorem c5_witness :
    WellFormedVocab5
      [("zz.key".toList, ⟨"B".toList, []⟩),
       ("aa.key".toList, ⟨"C desc".toList, ["x".toList, "y z".toList]⟩)] ∧
    _regenerate_yaml_block
      [("aa.key".toList, ⟨"C desc".toList, ["x".toList, "y z".toList]⟩),
       ("zz.key".toList, ⟨"B".toList, []⟩)] =
      _regenerate_yaml_block
        [("zz.key".toList, ⟨"B".toList, []⟩),
         ("aa.key".toList, ⟨"C desc".toList, ["x".toList, "y z".toList]⟩)] ∧
    _regenerate_yaml_block
      (_parse_yaml_from_markdown (embedPage (_regenerate_yaml_block
        [("zz.key".toList, ⟨"B".toList, []⟩),
         ("aa.key".toList,
          ⟨"C desc".toList, ["x".toList, "y z".toList]⟩)]))) =
      _regenerate_yaml_block
        [("zz.key".toList, ⟨"B".toList, []⟩),
         ("aa.key".toList, ⟨"C desc".toList, ["x".toList, "y z".toList]⟩)] := by
  have h := c5_render_roundtrip_amended
    [("zz.key".toList, ⟨"B".toList, []⟩),
     ("aa.key".toList, ⟨"C desc".toList, ["x".toList, "y z".toList]⟩)]
    [("aa.key".toList, ⟨"C desc".toList, ["x".toList, "y z".toList]⟩),
     ("zz.key".toList, ⟨"B".toList, []⟩)]
    ⟨by decide, by decide⟩ (by decide)
  exact ⟨⟨by decide, by decide⟩, h.1, h.2.2⟩

end Isaac
